import Mathlib

/-!
Shallow embedding of `src/saleae/register_decoder/register_map.py`.

Python ints are modelled as `Int` (addresses, widths) or `Nat` (byte values,
list indices, byte widths); `bytes`/`bytearray` as `List Nat`; Python list
indexing/slicing semantics (negative-index wrap-around, clamping, slice
assignment splicing, `IndexError`) are modelled explicitly; raising code
returns `Except`.
-/

namespace RegisterDecoder

instance {ε α : Type} [DecidableEq ε] [DecidableEq α] : DecidableEq (Except ε α) := fun x y =>
  match x, y with
  | Except.ok a, Except.ok b =>
    if h : a = b then isTrue (by rw [h]) else isFalse (by intro hc; cases hc; exact h rfl)
  | Except.ok _, Except.error _ => isFalse (by intro hc; cases hc)
  | Except.error _, Except.ok _ => isFalse (by intro hc; cases hc)
  | Except.error e, Except.error f =>
    if h : e = f then isTrue (by rw [h]) else isFalse (by intro hc; cases hc; exact h rfl)

/-- `ByteOrder` enum from the source. -/
inductive ByteOrder
  | little
  | big
deriving DecidableEq

/-- The value-kind configuration of a `Register`, as validated by
`Register.__init__`: either the default raw-bytes kind, or the auto-integer
kind which requires a byte order and a signedness.  (The `str` and
`value_parser` kinds of the source are not exercised by any verified claim.) -/
inductive ValueType
  | vbytes
  | vint (byteOrder : ByteOrder) (signed : Bool)
deriving DecidableEq

/-- A decoded register value (`Register.deserialize`'s result). -/
inductive Value
  | bytes (data : List Nat)
  | int (v : Int)
deriving DecidableEq

/-- Errors raised by the source, distinguished by kind:
`valueError` for `ValueError`, `indexError` for `IndexError` (out-of-range
list assignment), `registerUnbound` for the `RuntimeError` raised by
`Register.name` before binding, `registerNotObserved` for the
`RegisterNotObserved` exception (carrying the register's name). -/
inductive RMError
  | valueError (msg : String)
  | indexError
  | registerUnbound
  | registerNotObserved (name : String)
deriving DecidableEq

/-- The `Register` object: `address`, `address_width`, its value-kind
configuration, and the `_name` field (`none` until bound by the metaclass). -/
structure Register where
  address : Int
  addressWidth : Int
  valueType : ValueType
  nameOpt : Option String
deriving DecidableEq

instance : Inhabited Register := ⟨⟨0, 1, ValueType.vbytes, none⟩⟩

/-- The `Register.name` property: raises (`RuntimeError`, modelled as
`registerUnbound`) when `_name is None`, else returns the assigned name. -/
def Register.name (r : Register) : Except RMError String :=
  match r.nameOpt with
  | none => Except.error RMError.registerUnbound
  | some n => Except.ok n

/-- `int.from_bytes` big-endian accumulation. -/
def bytesToNatBE (bs : List Nat) : Nat :=
  bs.foldl (fun acc b => acc * 256 + b) 0

/-- Python's `int.from_bytes(bs, byteorder, signed)`. -/
def intFromBytes (byteOrder : ByteOrder) (signed : Bool) (bs : List Nat) : Int :=
  let magnitude := bytesToNatBE (match byteOrder with | ByteOrder.big => bs | ByteOrder.little => bs.reverse)
  if signed && decide (2 ^ (8 * bs.length - 1) ≤ magnitude) then
    (magnitude : Int) - 2 ^ (8 * bs.length)
  else
    (magnitude : Int)

/-- Big-endian byte expansion of a natural number into exactly `n` bytes
(the low `8*n` bits). -/
def natToBytesBE : Nat → Nat → List Nat
  | 0, _ => []
  | n + 1, v => natToBytesBE n (v / 256) ++ [v % 256]

/-- Python's `v.to_bytes(n, byteorder, signed)` for an in-range `v`:
the two's-complement representative `v mod 2^(8n)` laid out in the given
byte order.  (The `signed` flag only affects Python's range check, not the
produced bytes; it is kept for statement fidelity.) -/
def intToBytes (n : Nat) (byteOrder : ByteOrder) (signed : Bool) (v : Int) : List Nat :=
  let be := natToBytesBE n (v % ((2 : Int) ^ (8 * n))).toNat
  match byteOrder, signed with
  | ByteOrder.big, _ => be
  | ByteOrder.little, _ => be.reverse

/-- `Register.deserialize(raw_data)`: dispatch on the value kind. -/
def Register.deserialize (r : Register) (rawData : List Nat) : Value :=
  match r.valueType with
  | ValueType.vbytes => Value.bytes rawData
  | ValueType.vint byteOrder signed => Value.int (intFromBytes byteOrder signed rawData)

/-- The binary-search loop shared by `_register_binary_search_left` and
`_register_binary_search_reg_end_right`: starting from `[left, right)`,
narrow with `mid = (left + right) / 2`, moving `left` to `mid + 1` when
`c mid` holds (the "continue right" test) and `right` to `mid` otherwise,
until `left = right`.  The fuel argument only bounds the iteration count;
`right - left` steps always suffice. -/
def bsearchAux (c : Nat → Bool) : Nat → Nat → Nat → Nat
  | 0, left, _ => left
  | fuel + 1, left, right =>
    if left < right then
      if c ((left + right) / 2) then bsearchAux c fuel ((left + right) / 2 + 1) right
      else bsearchAux c fuel left ((left + right) / 2)
    else left

/-- `RegisterMapMeta._register_binary_search_left`: index of the first
register with `register.address >= address`. -/
def registerBinarySearchLeft (regs : List Register) (address : Int) : Nat :=
  bsearchAux (fun mid => decide ((regs.getD mid default).address < address)) regs.length 0 regs.length

/-- `RegisterMapMeta._register_binary_search_reg_end_right`: index of the
first register with `register.address + register.address_width > address`
(the loop keeps `left` moving right while that condition fails). -/
def registerBinarySearchRegEndRight (regs : List Register) (address : Int) : Nat :=
  bsearchAux
    (fun mid =>
      !(decide ((regs.getD mid default).address + (regs.getD mid default).addressWidth > address)))
    regs.length 0 regs.length

/-- `RegisterMapMeta.registers_intersecting(slice(start, stop))`. -/
def registersIntersecting (regs : List Register) (start stop : Int) : List Register :=
  let leftIndex := registerBinarySearchRegEndRight regs start
  let rightIndex := registerBinarySearchLeft regs stop
  if leftIndex < rightIndex then
    (regs.take rightIndex).drop leftIndex
  else
    []

/-- `RegisterMapMeta.register_containing(address)`. -/
def registerContaining (regs : List Register) (address : Int) : Option Register :=
  let registerIndex := registerBinarySearchRegEndRight regs address
  if registerIndex = regs.length then
    none
  else
    let register := regs.getD registerIndex default
    if register.address ≤ address ∧ register.address + register.addressWidth > address then
      some register
    else
      none

/-- Python `list.insert(i, a)` for `0 ≤ i ≤ len` (the only way the source
calls it, via `_register_binary_search_left`'s result). -/
def insertAt (l : List α) (i : Nat) (a : α) : List α :=
  l.take i ++ a :: l.drop i

/-- One iteration of the metaclass constructor loop
(`RegisterMapMeta.__init__`) for a `(name, value)` class member: stamp the
name onto the register, reject it when `registers_intersecting` over its own
range is non-empty (raising an error carrying both names, as in
`f"the registers ... and ... overlap"`), else insert it into the sorted list
at `_register_binary_search_left(value.address)`. -/
def bindRegister (regs : List Register) (name : String) (value : Register) :
    Except (String × String) (List Register) :=
  let bound := { value with nameOpt := some name }
  match registersIntersecting regs bound.address (bound.address + bound.addressWidth) with
  | [] => Except.ok (insertAt regs (registerBinarySearchLeft regs bound.address) bound)
  | conflict :: _ => Except.error (name, conflict.nameOpt.getD "")

/-- The metaclass constructor loop over the class body's `(name, Register)`
members, starting from the (possibly inherited) sorted register list. -/
def buildSchema : List Register → List (String × Register) → Except (String × String) (List Register)
  | regs, [] => Except.ok regs
  | regs, (name, value) :: rest =>
    match bindRegister regs name value with
    | Except.error e => Except.error e
    | Except.ok regs2 => buildSchema regs2 rest

/-- `max((reg.address + reg.address_width for reg in cls), default=0)`
(`RegisterMap.__init__`'s `_address_max`). -/
def addressMax (regs : List Register) : Int :=
  match regs.map (fun register => register.address + register.addressWidth) with
  | [] => 0
  | e :: es => es.foldl max e

/-- Normalization of a Python slice endpoint over a sequence of length `n`:
negative endpoints count from the end (clamped below at 0), non-negative
ones are clamped above at `n`. -/
def pyNorm (i : Int) (n : Nat) : Nat :=
  if i < 0 then (i + n).toNat else min i.toNat n

/-- Python slice read `l[s:e]` (step 1). -/
def pySlice (l : List α) (s e : Int) : List α :=
  (l.take (pyNorm e l.length)).drop (pyNorm s l.length)

/-- Python slice assignment `l[s:e] = repl` (step 1): splice `repl` in place
of the elements from the normalized start up to the normalized end (empty
when the normalized end precedes the start), allowing a length change. -/
def pySliceAssign (l : List α) (s e : Int) (repl : List α) : List α :=
  let s2 := pyNorm s l.length
  let e2 := max s2 (pyNorm e l.length)
  l.take s2 ++ repl ++ l.drop e2

/-- Python single-element assignment `l[i] = b`: negative indices wrap
around once; anything still out of range raises `IndexError`. -/
def listSetPy (l : List Bool) (i : Int) (b : Bool) : Except RMError (List Bool) :=
  if i < 0 then
    if 0 ≤ i + l.length then Except.ok (l.set (i + l.length).toNat b)
    else Except.error RMError.indexError
  else if i < l.length then Except.ok (l.set i.toNat b)
  else Except.error RMError.indexError

/-- `for i in range(start, start + count): mask[i] = True`. -/
def setRange (l : List Bool) (i : Int) : Nat → Except RMError (List Bool)
  | 0 => Except.ok l
  | count + 1 =>
    match listSetPy l i true with
    | Except.error e => Except.error e
    | Except.ok l2 => setRange l2 (i + 1) count

/-- The mutable state of a `RegisterMap` instance: `_internal_state` (the
byte buffer) and `_internal_state_mask` (the per-address-unit observed
flags). -/
structure RMState where
  internalState : List Nat
  internalStateMask : List Bool
deriving DecidableEq

/-- `RegisterMap.__init__`: a zeroed buffer of `_address_max *
address_byte_width` bytes and an all-`False` mask of `_address_max` flags.
(`bytearray(n)` requires `n ≥ 0` and `range(n)` is empty for `n ≤ 0`; the
`toNat` clamps coincide with Python whenever the instance can be
constructed at all.) -/
def initState (regs : List Register) (addressByteWidth : Nat) : RMState :=
  { internalState := List.replicate ((addressMax regs) * addressByteWidth).toNat 0
    internalStateMask := List.replicate (addressMax regs).toNat false }

/-- `RegisterMap.observe(address, data)`.  The second component of a
successful result is what the Python function returns: `none` models the
bare `return` statement (Python `None`) taken for fully out-of-range
addresses, `some rs` models returning the list `rs`. -/
def observe (regs : List Register) (addressByteWidth : Nat) (st : RMState)
    (address : Int) (data : List Nat) :
    Except RMError (RMState × Option (List Register)) :=
  if data.length < 1 then
    Except.error (RMError.valueError "data must be non-empty")
  else if data.length % addressByteWidth ≠ 0 then
    Except.error (RMError.valueError "data's length must be divisible by the address width")
  else
    let endAddress : Int := address + (data.length / addressByteWidth : Nat)
    if address ≥ addressMax regs then
      Except.ok (st, none)
    else
      let startBytes : Int := address * addressByteWidth
      let endBytes : Int := min endAddress (addressMax regs) * addressByteWidth
      let newInternalState :=
        pySliceAssign st.internalState startBytes endBytes
          (pySlice data 0 (endBytes - startBytes))
      match setRange st.internalStateMask address (endAddress - address).toNat with
      | Except.error e => Except.error e
      | Except.ok newMask =>
        Except.ok (⟨newInternalState, newMask⟩, some (registersIntersecting regs address endAddress))

/-- `RegisterMap.deserialize(register)`: require every mask flag over the
register's address range, then decode the exact byte range; otherwise raise
`RegisterNotObserved` (whose message evaluates `register.name`, itself
raising when the register is unbound). -/
def deserialize (addressByteWidth : Nat) (st : RMState) (register : Register) :
    Except RMError Value :=
  if (pySlice st.internalStateMask register.address
      (register.address + register.addressWidth)).all (fun b => b) then
    let startBytes : Int := register.address * addressByteWidth
    let endBytes : Int := startBytes + register.addressWidth * addressByteWidth
    Except.ok (register.deserialize (pySlice st.internalState startBytes endBytes))
  else
    match register.nameOpt with
    | none => Except.error RMError.registerUnbound
    | some n => Except.error (RMError.registerNotObserved n)

/-- The invariant established by schema construction: every register's width
is at least 1 (enforced by `Register.__init__`) and the list is sorted with
pairwise disjoint half-open ranges. -/
def ValidSchema (regs : List Register) : Prop :=
  (∀ register ∈ regs, 1 ≤ register.addressWidth) ∧
  List.Pairwise (fun a b => a.address + a.addressWidth ≤ b.address) regs

instance (regs : List Register) : Decidable (ValidSchema regs) := by
  unfold ValidSchema; infer_instance

/-- Two registers' half-open address ranges intersect. -/
def Intersects (a b : Register) : Prop :=
  a.address < b.address + b.addressWidth ∧ b.address < a.address + a.addressWidth

instance (a b : Register) : Decidable (Intersects a b) := by
  unfold Intersects; infer_instance

/-! ## Correctness of the binary-search loop -/

/-- Loop invariant of `bsearchAux` for a test `c` that is downward closed on
`[0, n)`: for a window `[left, right)` whose outside is already settled, the
loop lands on the unique split point. -/
theorem bsearchAux_spec (c : Nat → Bool) (n : Nat)
    (hmono : ∀ i j, i ≤ j → j < n → c j = true → c i = true) :
    ∀ fuel left right, right - left ≤ fuel → left ≤ right → right ≤ n →
      (∀ i, i < left → c i = true) →
      (∀ i, right ≤ i → i < n → c i = false) →
      left ≤ bsearchAux c fuel left right ∧
      bsearchAux c fuel left right ≤ right ∧
      (∀ i, i < bsearchAux c fuel left right → c i = true) ∧
      (∀ i, bsearchAux c fuel left right ≤ i → i < n → c i = false) := by
  intro fuel
  induction fuel with
  | zero =>
    intro left right hfuel hlr hrn hL hR
    have heq : left = right := by omega
    subst heq
    exact ⟨Nat.le_refl _, Nat.le_refl _, hL, hR⟩
  | succ fuel ih =>
    intro left right hfuel hlr hrn hL hR
    by_cases hlt : left < right
    · have hmid1 : left ≤ (left + right) / 2 := by omega
      have hmid2 : (left + right) / 2 < right := by omega
      rw [bsearchAux, if_pos hlt]
      by_cases hc : c ((left + right) / 2) = true
      · rw [if_pos hc]
        have hL2 : ∀ i, i < (left + right) / 2 + 1 → c i = true := fun i hi =>
          hmono i ((left + right) / 2) (by omega) (by omega) hc
        have h := ih ((left + right) / 2 + 1) right (by omega) (by omega) hrn hL2 hR
        exact ⟨by omega, h.2.1, h.2.2.1, h.2.2.2⟩
      · rw [if_neg hc]
        have hR2 : ∀ i, (left + right) / 2 ≤ i → i < n → c i = false := by
          intro i hi hin
          by_contra hci
          exact hc (hmono ((left + right) / 2) i hi hin (by
            cases hcv : c i with
            | true => rfl
            | false => exact absurd hcv hci))
        have h := ih left ((left + right) / 2) (by omega) (by omega) (by omega) hL hR2
        exact ⟨h.1, by omega, h.2.2.1, h.2.2.2⟩
    · rw [bsearchAux, if_neg hlt]
      have heq : left = right := by omega
      subst heq
      exact ⟨Nat.le_refl _, Nat.le_refl _, hL, hR⟩

/-- Full-range corollary: the loop started on `[0, n)` computes the count of
the `true`-prefix of a downward-closed test. -/
theorem bsearchAux_full (c : Nat → Bool) (n : Nat)
    (hmono : ∀ i j, i ≤ j → j < n → c j = true → c i = true) :
    bsearchAux c n 0 n ≤ n ∧
    (∀ i, i < bsearchAux c n 0 n → c i = true) ∧
    (∀ i, bsearchAux c n 0 n ≤ i → i < n → c i = false) := by
  have h := bsearchAux_spec c n hmono n 0 n (by omega) (by omega) (by omega)
    (fun i hi => absurd hi (Nat.not_lt_zero i)) (fun i hi hin => by omega)
  exact ⟨h.2.1, h.2.2.1, h.2.2.2⟩

/-! ## Consequences of the schema invariant -/

theorem valid_getD_rel {regs : List Register} (hv : ValidSchema regs) {i j : Nat}
    (hij : i < j) (hj : j < regs.length) :
    (regs.getD i default).address + (regs.getD i default).addressWidth ≤
      (regs.getD j default).address := by
  have hi : i < regs.length := Nat.lt_trans hij hj
  rw [List.getD_eq_getElem regs default hi, List.getD_eq_getElem regs default hj]
  exact (List.pairwise_iff_getElem.mp hv.2) i j hi hj hij

theorem valid_getD_width {regs : List Register} (hv : ValidSchema regs) {i : Nat}
    (hi : i < regs.length) : 1 ≤ (regs.getD i default).addressWidth := by
  rw [List.getD_eq_getElem regs default hi]
  exact hv.1 _ (List.getElem_mem hi)

theorem valid_addr_mono {regs : List Register} (hv : ValidSchema regs) {i j : Nat}
    (hij : i ≤ j) (hj : j < regs.length) :
    (regs.getD i default).address ≤ (regs.getD j default).address := by
  rcases Nat.lt_or_ge i j with h | h
  · have h1 := valid_getD_rel hv h hj
    have h2 := valid_getD_width hv (Nat.lt_trans h hj)
    omega
  · have heq : i = j := by omega
    subst heq
    exact le_refl _

theorem valid_end_mono {regs : List Register} (hv : ValidSchema regs) {i j : Nat}
    (hij : i ≤ j) (hj : j < regs.length) :
    (regs.getD i default).address + (regs.getD i default).addressWidth ≤
      (regs.getD j default).address + (regs.getD j default).addressWidth := by
  rcases Nat.lt_or_ge i j with h | h
  · have h1 := valid_getD_rel hv h hj
    have h2 := valid_getD_width hv hj
    omega
  · have heq : i = j := by omega
    subst heq
    exact le_refl _

/-- `_register_binary_search_left` splits the sorted register list at the
first address reaching `address`. -/
theorem registerBinarySearchLeft_spec (regs : List Register) (hv : ValidSchema regs)
    (address : Int) :
    registerBinarySearchLeft regs address ≤ regs.length ∧
    (∀ i, i < registerBinarySearchLeft regs address →
      (regs.getD i default).address < address) ∧
    (∀ i, registerBinarySearchLeft regs address ≤ i → i < regs.length →
      address ≤ (regs.getD i default).address) := by
  have h := bsearchAux_full (fun mid => decide ((regs.getD mid default).address < address))
    regs.length
    (by
      intro i j hij hj hcj
      rw [decide_eq_true_eq] at hcj ⊢
      exact lt_of_le_of_lt (valid_addr_mono hv hij hj) hcj)
  refine ⟨h.1, fun i hi => ?_, fun i hi hin => ?_⟩
  · have := h.2.1 i hi
    rwa [decide_eq_true_eq] at this
  · have := h.2.2 i hi hin
    rw [decide_eq_false_iff_not] at this
    omega

/-- `_register_binary_search_reg_end_right` splits the sorted register list
at the first end address exceeding `address`. -/
theorem registerBinarySearchRegEndRight_spec (regs : List Register) (hv : ValidSchema regs)
    (address : Int) :
    registerBinarySearchRegEndRight regs address ≤ regs.length ∧
    (∀ i, i < registerBinarySearchRegEndRight regs address →
      (regs.getD i default).address + (regs.getD i default).addressWidth ≤ address) ∧
    (∀ i, registerBinarySearchRegEndRight regs address ≤ i → i < regs.length →
      address < (regs.getD i default).address + (regs.getD i default).addressWidth) := by
  have h := bsearchAux_full
    (fun mid =>
      !(decide ((regs.getD mid default).address + (regs.getD mid default).addressWidth > address)))
    regs.length
    (by
      intro i j hij hj hcj
      rw [Bool.not_eq_true', decide_eq_false_iff_not] at hcj ⊢
      intro hlt
      exact hcj (lt_of_lt_of_le hlt (valid_end_mono hv hij hj)))
  refine ⟨h.1, fun i hi => ?_, fun i hi hin => ?_⟩
  · have := h.2.1 i hi
    rw [Bool.not_eq_true', decide_eq_false_iff_not] at this
    omega
  · have := h.2.2 i hi hin
    simp only [Bool.not_eq_false', decide_eq_true_eq] at this
    exact this

/-! ## Slices of sorted lists are filters -/

/-- When a Boolean predicate holds exactly on the index window `[L, R)` of a
list, filtering the list equals slicing it. -/
theorem filter_eq_take_drop {α : Type} (p : α → Bool) :
    ∀ (l : List α) (L R : Nat), L ≤ R →
      (∀ i (hi : i < l.length), p l[i] = decide (L ≤ i ∧ i < R)) →
      l.filter p = (l.take R).drop L := by
  intro l
  induction l with
  | nil => intro L R _ _; simp
  | cons a t ih =>
    intro L R hLR hp
    match L, R with
    | 0, 0 =>
      have hpa : p a = false := by simpa using hp 0 (by simp)
      have ht : t.filter p = (t.take 0).drop 0 := by
        refine ih 0 0 (le_refl 0) ?_
        intro i hi
        have := hp (i + 1) (by simpa using Nat.succ_lt_succ hi)
        simpa using this
      simp only [List.filter_cons, hpa]
      simpa using ht
    | 0, R' + 1 =>
      have hpa : p a = true := by simpa using hp 0 (by simp)
      have ht : t.filter p = (t.take R').drop 0 := by
        refine ih 0 R' (Nat.zero_le R') ?_
        intro i hi
        have := hp (i + 1) (by simpa using Nat.succ_lt_succ hi)
        simpa [Nat.succ_lt_succ_iff] using this
      simp only [List.filter_cons, hpa, if_pos]
      simp only [List.take_succ_cons, List.drop_zero] at *
      simp [ht]
    | L' + 1, R' + 1 =>
      have hpa : p a = false := by simpa using hp 0 (by simp)
      have ht : t.filter p = (t.take R').drop L' := by
        refine ih L' R' (by omega) ?_
        intro i hi
        have := hp (i + 1) (by simpa using Nat.succ_lt_succ hi)
        simpa [Nat.succ_lt_succ_iff, Nat.succ_le_succ_iff] using this
      simp only [List.filter_cons, hpa]
      simpa using ht

/-- The heart of `registers_intersecting`: on a valid schema it computes the
filter by range overlap. -/
theorem registersIntersecting_eq_filter (regs : List Register) (hv : ValidSchema regs)
    (start stop : Int) :
    registersIntersecting regs start stop =
      regs.filter (fun r =>
        decide (r.address < stop) && decide (start < r.address + r.addressWidth)) := by
  have hL := registerBinarySearchRegEndRight_spec regs hv start
  have hR := registerBinarySearchLeft_spec regs hv stop
  set L := registerBinarySearchRegEndRight regs start with hLdef
  set R := registerBinarySearchLeft regs stop with hRdef
  have hchar : ∀ i (hi : i < regs.length),
      (decide (regs[i].address < stop) && decide (start < regs[i].address + regs[i].addressWidth))
        = decide (L ≤ i ∧ i < R) := by
    intro i hi
    have hgd : regs.getD i default = regs[i] := List.getD_eq_getElem regs default hi
    by_cases hwin : L ≤ i ∧ i < R
    · have h1 := hR.2.1 i hwin.2
      have h2 := hL.2.2 i hwin.1 hi
      rw [hgd] at h1 h2
      simp [hwin, h1, h2]
    · rw [decide_eq_false hwin]
      rcases Nat.lt_or_ge i L with hiL | hiL
      · have h2 := hL.2.1 i hiL
        rw [hgd] at h2
        simp [show ¬ (start < regs[i].address + regs[i].addressWidth) by omega]
      · have hiR : R ≤ i := by omega
        have h1 := hR.2.2 i hiR hi
        rw [hgd] at h1
        simp [show ¬ (regs[i].address < stop) by omega]
  rw [registersIntersecting]
  by_cases hlt : L < R
  · rw [if_pos hlt]
    refine Eq.symm (filter_eq_take_drop _ regs L R (Nat.le_of_lt hlt) ?_)
    intro i hi
    show (decide (regs[i].address < stop)
        && decide (start < regs[i].address + regs[i].addressWidth)) = decide (L ≤ i ∧ i < R)
    exact hchar i hi
  · rw [if_neg hlt]
    have hfilter : regs.filter (fun r =>
        decide (r.address < stop) && decide (start < r.address + r.addressWidth))
          = (regs.take R).drop R := by
      refine filter_eq_take_drop _ regs R R (le_refl R) ?_
      intro i hi
      show (decide (regs[i].address < stop)
          && decide (start < regs[i].address + regs[i].addressWidth)) = decide (R ≤ i ∧ i < R)
      rw [hchar i hi]
      have : ¬ (L ≤ i ∧ i < R) := by omega
      have : ¬ (R ≤ i ∧ i < R) := by omega
      simp only [decide_eq_decide]
      omega
    rw [hfilter]
    exact (List.drop_eq_nil_of_le (by simp [List.length_take])).symm

/-- Unfolding lemma for `registerContaining` (the `let`-bindings of the
definition zeta-reduced). -/
theorem registerContaining_def (regs : List Register) (a : Int) :
    registerContaining regs a =
      if registerBinarySearchRegEndRight regs a = regs.length then none
      else if (regs.getD (registerBinarySearchRegEndRight regs a) default).address ≤ a ∧
          (regs.getD (registerBinarySearchRegEndRight regs a) default).address +
            (regs.getD (registerBinarySearchRegEndRight regs a) default).addressWidth > a then
        some (regs.getD (registerBinarySearchRegEndRight regs a) default)
      else none := rfl

/-- Claim C1: on every validly constructed schema, `registers_intersecting`
over `[start, stop)` returns exactly the registers `R` with
`R.address < stop` and `R.address + R.address_width > start`, in ascending
address order. -/
theorem claim_C1_registers_intersecting (regs : List Register) (hv : ValidSchema regs)
    (start stop : Int) :
    registersIntersecting regs start stop =
      regs.filter (fun r =>
        decide (r.address < stop) && decide (start < r.address + r.addressWidth)) ∧
    (registersIntersecting regs start stop).Pairwise (fun a b => a.address < b.address) := by
  refine ⟨registersIntersecting_eq_filter regs hv start stop, ?_⟩
  have hsorted : regs.Pairwise (fun a b => a.address < b.address) := by
    refine hv.2.imp_of_mem ?_
    intro a b ha _ hr
    have := hv.1 a ha
    omega
  rw [registersIntersecting_eq_filter regs hv start stop]
  exact hsorted.sublist (List.filter_sublist regs)

/-- A small two-register schema used by the concrete witnesses. -/
def demoRegs : List Register :=
  [⟨0, 1, ValueType.vbytes, some "status"⟩, ⟨1, 2, ValueType.vbytes, some "data"⟩]

/-- Witness for claim C1 at a concrete schema and query range. -/
theorem claim_C1_witness :
    ValidSchema demoRegs ∧
    (registersIntersecting demoRegs 1 3 =
      demoRegs.filter (fun r =>
          decide (r.address < 3) && decide (1 < r.address + r.addressWidth)) ∧
    (registersIntersecting demoRegs 1 3).Pairwise (fun a b => a.address < b.address)) :=
  ⟨by decide, claim_C1_registers_intersecting demoRegs (by decide) 1 3⟩

/-- Claim C2: on every validly constructed schema, `register_containing`
returns the register whose half-open range contains the queried address, and
`none` for an address contained in no register's range. -/
theorem claim_C2_register_containing (regs : List Register) (hv : ValidSchema regs) :
    (∀ r ∈ regs, ∀ a : Int, r.address ≤ a → a < r.address + r.addressWidth →
      registerContaining regs a = some r) ∧
    (∀ a : Int, (∀ r ∈ regs, ¬ (r.address ≤ a ∧ a < r.address + r.addressWidth)) →
      registerContaining regs a = none) := by
  constructor
  · intro r hr a h1 h2
    have hL := registerBinarySearchRegEndRight_spec regs hv a
    obtain ⟨k, hk, hkr⟩ := List.mem_iff_getElem.mp hr
    have hgdk : regs.getD k default = r := by
      rw [List.getD_eq_getElem regs default hk, hkr]
    have hkL : registerBinarySearchRegEndRight regs a = k := by
      by_contra hne
      rcases Nat.lt_or_ge (registerBinarySearchRegEndRight regs a) k with hLk | hLk
      · have hrel := valid_getD_rel hv hLk hk
        have hendL := hL.2.2 _ (le_refl _) (Nat.lt_trans hLk hk)
        rw [hgdk] at hrel
        omega
      · have hkL2 : k < registerBinarySearchRegEndRight regs a := by omega
        have := hL.2.1 k hkL2
        rw [hgdk] at this
        omega
    rw [registerContaining_def, hkL, if_neg (Nat.ne_of_lt hk), hgdk, if_pos ⟨h1, h2⟩]
  · intro a hnone
    have hL := registerBinarySearchRegEndRight_spec regs hv a
    rw [registerContaining_def]
    by_cases hLlen : registerBinarySearchRegEndRight regs a = regs.length
    · rw [if_pos hLlen]
    · rw [if_neg hLlen]
      have hLlt : registerBinarySearchRegEndRight regs a < regs.length :=
        Nat.lt_of_le_of_ne hL.1 hLlen
      have hmem : regs.getD (registerBinarySearchRegEndRight regs a) default ∈ regs := by
        rw [List.getD_eq_getElem regs default hLlt]
        exact List.getElem_mem hLlt
      rw [if_neg (hnone _ hmem)]

/-- Witness for claim C2 at a concrete schema. -/
theorem claim_C2_witness :
    ValidSchema demoRegs ∧
    ((∀ r ∈ demoRegs, ∀ a : Int, r.address ≤ a → a < r.address + r.addressWidth →
        registerContaining demoRegs a = some r) ∧
    (∀ a : Int,
      (∀ r ∈ demoRegs, ¬ (r.address ≤ a ∧ a < r.address + r.addressWidth)) →
      registerContaining demoRegs a = none)) :=
  ⟨by decide, claim_C2_register_containing demoRegs (by decide)⟩

/-- Counterexample to claim C8: on the valid one-register schema
`[0, 10)`, the zero-length query `[5, 5)` returns the register (the address
5 lies strictly inside its range), not the empty list. -/
theorem claim_C8_counterexample :
    ValidSchema [⟨0, 10, ValueType.vbytes, some "r"⟩] ∧
    registersIntersecting [⟨0, 10, ValueType.vbytes, some "r"⟩] 5 5 =
      [⟨0, 10, ValueType.vbytes, some "r"⟩] := by
  decide

/-- Claim C8 as amended: on a valid schema the zero-length query `[a, a)`
still follows the general overlap formula `R.address < a ∧ a < R.address +
R.address_width`; it is empty exactly when `a` lies strictly inside no
register's range (in particular at register boundaries and outside all
registers), but returns the enclosing register when `a` is strictly inside
one. -/
theorem claim_C8_zero_length_query (regs : List Register) (hv : ValidSchema regs) (a : Int) :
    registersIntersecting regs a a =
      regs.filter (fun r =>
        decide (r.address < a) && decide (a < r.address + r.addressWidth)) ∧
    (registersIntersecting regs a a = [] ↔
      ∀ r ∈ regs, ¬ (r.address < a ∧ a < r.address + r.addressWidth)) := by
  have heq := registersIntersecting_eq_filter regs hv a a
  refine ⟨heq, ?_⟩
  rw [heq, List.filter_eq_nil_iff]
  constructor
  · intro h r hr hcontra
    have := h r hr
    simp only [Bool.and_eq_true, decide_eq_true_eq] at this
    exact this ⟨hcontra.1, hcontra.2⟩
  · intro h r hr
    simp only [Bool.and_eq_true, decide_eq_true_eq]
    intro hcontra
    exact h r hr ⟨hcontra.1, hcontra.2⟩

/-- Witness for the amended claim C8 at a concrete schema and address. -/
theorem claim_C8_witness :
    ValidSchema demoRegs ∧
    (registersIntersecting demoRegs 2 2 =
      demoRegs.filter (fun r =>
        decide (r.address < 2) && decide (2 < r.address + r.addressWidth)) ∧
    (registersIntersecting demoRegs 2 2 = [] ↔
      ∀ r ∈ demoRegs, ¬ (r.address < 2 ∧ 2 < r.address + r.addressWidth))) :=
  ⟨by decide, claim_C8_zero_length_query demoRegs (by decide) 2⟩

/-! ## Schema construction -/

/-- The register produced by binding a `(name, Register)` class member:
the register with its `_name` stamped. -/
def boundOf (p : String × Register) : Register :=
  ⟨p.2.address, p.2.addressWidth, p.2.valueType, some p.1⟩

/-- Unfolding lemma for `bindRegister`. -/
theorem bindRegister_def (regs : List Register) (name : String) (value : Register) :
    bindRegister regs name value =
      match registersIntersecting regs value.address (value.address + value.addressWidth) with
      | [] => Except.ok (insertAt regs (registerBinarySearchLeft regs value.address)
          (boundOf (name, value)))
      | conflict :: _ => Except.error (name, conflict.nameOpt.getD "") := rfl

/-- A successful `bindRegister` preserves the schema invariant and adds
exactly the stamped register. -/
theorem bindRegister_ok {regs : List Register} (hv : ValidSchema regs)
    {name : String} {value : Register} (hw : 1 ≤ value.addressWidth) {out : List Register}
    (hok : bindRegister regs name value = Except.ok out) :
    ValidSchema out ∧ List.Perm out (boundOf (name, value) :: regs) := by
  rw [bindRegister_def] at hok
  cases hint : registersIntersecting regs value.address (value.address + value.addressWidth) with
  | cons c cs => rw [hint] at hok; cases hok
  | nil =>
    rw [hint] at hok
    injection hok with hout
    subst hout
    have hno : ∀ r ∈ regs,
        ¬ (r.address < value.address + value.addressWidth ∧
           value.address < r.address + r.addressWidth) := by
      intro r hr
      rw [registersIntersecting_eq_filter regs hv] at hint
      have := (List.filter_eq_nil_iff.mp hint) r hr
      simp only [Bool.and_eq_true, decide_eq_true_eq] at this
      intro hcontra
      exact this ⟨hcontra.1, hcontra.2⟩
    have hI := registerBinarySearchLeft_spec regs hv value.address
    set i := registerBinarySearchLeft regs value.address with hidef
    have hRbefore : ∀ a ∈ regs.take i, a.address + a.addressWidth ≤ value.address := by
      intro a ha
      obtain ⟨k, hk, hka⟩ := List.mem_iff_getElem.mp ha
      have hki : k < i := by
        have := hk
        rw [List.length_take] at this
        omega
      have hkn : k < regs.length := by
        have := hk
        rw [List.length_take] at this
        omega
      have haddr := hI.2.1 k hki
      rw [List.getD_eq_getElem regs default hkn] at haddr
      rw [List.getElem_take] at hka
      have hmem : a ∈ regs := (List.take_sublist i regs).mem ha
      have hna := hno a hmem
      have hwv : 1 ≤ value.addressWidth := hw
      rw [hka] at haddr
      omega
    have hRafter : ∀ b ∈ regs.drop i, value.address + value.addressWidth ≤ b.address := by
      intro b hb
      obtain ⟨k, hk, hkb⟩ := List.mem_iff_getElem.mp hb
      have hkn : i + k < regs.length := by
        have := hk
        rw [List.length_drop] at this
        omega
      have haddr := hI.2.2 (i + k) (by omega) hkn
      rw [List.getD_eq_getElem regs default hkn] at haddr
      rw [List.getElem_drop] at hkb
      have hmem : b ∈ regs := (List.drop_sublist i regs).mem hb
      have hnb := hno b hmem
      have hwb : 1 ≤ b.addressWidth := hv.1 b hmem
      rw [hkb] at haddr
      omega
    constructor
    · constructor
      · intro r hr
        rw [insertAt, List.mem_append, List.mem_cons] at hr
        rcases hr with h | h | h
        · exact hv.1 r ((List.take_sublist i regs).mem h)
        · rw [h]; exact hw
        · exact hv.1 r ((List.drop_sublist i regs).mem h)
      · rw [insertAt, List.pairwise_append]
        refine ⟨hv.2.sublist (List.take_sublist i regs), ?_, ?_⟩
        · rw [List.pairwise_cons]
          exact ⟨fun b hb => hRafter b hb, hv.2.sublist (List.drop_sublist i regs)⟩
        · intro a ha b hb
          rw [List.mem_cons] at hb
          rcases hb with h | h
          · rw [h]
            exact hRbefore a ha
          · have hsplit : List.Pairwise
                (fun x y => x.address + x.addressWidth ≤ y.address)
                (regs.take i ++ regs.drop i) := by
              rw [List.take_append_drop]
              exact hv.2
            exact (List.pairwise_append.mp hsplit).2.2 a ha b h
    · rw [insertAt]
      have h := @List.perm_middle Register (boundOf (name, value)) (regs.take i) (regs.drop i)
      rw [List.take_append_drop] at h
      exact h

/-- A run of the metaclass loop that succeeds preserves the invariant and
binds exactly the processed members, in some order. -/
theorem buildSchema_ok (pairs : List (String × Register)) :
    ∀ regs out, (∀ p ∈ pairs, 1 ≤ p.2.addressWidth) → ValidSchema regs →
      buildSchema regs pairs = Except.ok out →
      ValidSchema out ∧ List.Perm out (pairs.map boundOf ++ regs) := by
  induction pairs with
  | nil =>
    intro regs out _ hv hok
    injection hok with hout
    subst hout
    exact ⟨hv, List.Perm.refl _⟩
  | cons p rest ih =>
    obtain ⟨name, value⟩ := p
    intro regs out hw hv hok
    rw [buildSchema] at hok
    cases hbind : bindRegister regs name value with
    | error e => rw [hbind] at hok; cases hok
    | ok regs2 =>
      rw [hbind] at hok
      have h2 := bindRegister_ok hv (hw (name, value) (List.mem_cons_self _ _)) hbind
      have h3 := ih regs2 out (fun q hq => hw q (List.mem_cons_of_mem _ hq)) h2.1 hok
      refine ⟨h3.1, ?_⟩
      exact h3.2.trans ((List.Perm.append_left _ h2.2).trans List.perm_middle)

/-- A run of the metaclass loop that fails reports an error naming a member
still to process and an already-bound or to-be-processed member whose
register ranges intersect. -/
theorem buildSchema_error (pairs : List (String × Register)) :
    ∀ (regs : List Register) (done : List (String × Register)) (n1 n2 : String),
      (∀ p ∈ pairs, 1 ≤ p.2.addressWidth) → ValidSchema regs →
      List.Perm regs (done.map boundOf) →
      buildSchema regs pairs = Except.error (n1, n2) →
      ∃ r1, (n1, r1) ∈ pairs ∧
        ∃ r2, ((n2, r2) ∈ done ∨ (n2, r2) ∈ pairs) ∧ Intersects r1 r2 := by
  induction pairs with
  | nil => intro regs done n1 n2 _ _ _ herr; cases herr
  | cons p rest ih =>
    obtain ⟨name, value⟩ := p
    intro regs done n1 n2 hw hv hperm herr
    rw [buildSchema] at herr
    cases hbind : bindRegister regs name value with
    | ok regs2 =>
      rw [hbind] at herr
      have h2 := bindRegister_ok hv (hw (name, value) (List.mem_cons_self _ _)) hbind
      have hperm2 : List.Perm regs2 ((done ++ [(name, value)]).map boundOf) := by
        refine h2.2.trans ?_
        rw [List.map_append]
        have h := @List.perm_middle Register (boundOf (name, value))
          (done.map boundOf) ([] : List Register)
        simp only [List.append_nil] at h
        exact (List.Perm.cons _ hperm).trans h.symm
      have h3 := ih regs2 (done ++ [(name, value)]) n1 n2
        (fun q hq => hw q (List.mem_cons_of_mem _ hq)) h2.1 hperm2 herr
      obtain ⟨r1, hr1, r2, hr2, hint⟩ := h3
      refine ⟨r1, List.mem_cons_of_mem _ hr1, r2, ?_, hint⟩
      rcases hr2 with h | h
      · rcases List.mem_append.mp h with h4 | h4
        · exact Or.inl h4
        · rw [List.mem_singleton] at h4
          exact Or.inr (h4 ▸ List.mem_cons_self _ _)
      · exact Or.inr (List.mem_cons_of_mem _ h)
    | error e =>
      rw [hbind] at herr
      injection herr with he
      subst he
      rw [bindRegister_def] at hbind
      cases hint : registersIntersecting regs value.address
          (value.address + value.addressWidth) with
      | nil => rw [hint] at hbind; cases hbind
      | cons c cs =>
        rw [hint] at hbind
        injection hbind with hpair
        have hcmem : c ∈ regs ∧
            (c.address < value.address + value.addressWidth ∧
             value.address < c.address + c.addressWidth) := by
          rw [registersIntersecting_eq_filter regs hv] at hint
          have hcin : c ∈ regs.filter (fun r =>
              decide (r.address < value.address + value.addressWidth)
                && decide (value.address < r.address + r.addressWidth)) := by
            rw [hint]
            exact List.mem_cons_self c cs
          have := List.mem_filter.mp hcin
          simp only [Bool.and_eq_true, decide_eq_true_eq] at this
          exact ⟨this.1, this.2⟩
        obtain ⟨q, hq, hqc⟩ : ∃ q ∈ done, boundOf q = c := by
          have := hperm.mem_iff.mp hcmem.1
          obtain ⟨q, hq, hqc⟩ := List.mem_map.mp this
          exact ⟨q, hq, hqc⟩
        have hn1 : n1 = name := (Prod.mk.injEq _ _ _ _ ▸ hpair.symm).1
        have hn2 : n2 = q.1 := by
          have h5 : (name, c.nameOpt.getD "") = (n1, n2) := hpair
          have h6 : c.nameOpt = some q.1 := by rw [← hqc]; rfl
          have h7 : c.nameOpt.getD "" = n2 := congrArg Prod.snd h5
          rw [h6] at h7
          exact h7.symm
        refine ⟨value, ?_, q.2, Or.inl ?_, ?_⟩
        · rw [hn1]; exact List.mem_cons_self _ _
        · rw [hn2]; exact hq
        · have haddr : q.2.address = c.address := by rw [← hqc]; rfl
          have hwidth : q.2.addressWidth = c.addressWidth := by rw [← hqc]; rfl
          refine ⟨?_, ?_⟩
          · rw [haddr, hwidth]; exact hcmem.2.2
          · rw [haddr]; exact hcmem.2.1

/-- Claim C5: schema construction fails, naming two members whose
registers' half-open ranges intersect, whenever any two members' ranges
intersect (equal addresses included); a successful construction leaves the
register list strictly sorted by address with pairwise-disjoint ranges. -/
theorem claim_C5_construction (pairs : List (String × Register))
    (hw : ∀ p ∈ pairs, 1 ≤ p.2.addressWidth) :
    (∀ out, buildSchema [] pairs = Except.ok out →
      out.Pairwise (fun a b =>
        a.address < b.address ∧ a.address + a.addressWidth ≤ b.address)) ∧
    (∀ (i j : Nat) (hi : i < pairs.length) (hj : j < pairs.length), i ≠ j →
      Intersects (pairs[i]).2 (pairs[j]).2 →
      ∃ n1 n2, buildSchema [] pairs = Except.error (n1, n2) ∧
        ∃ r1 r2, (n1, r1) ∈ pairs ∧ (n2, r2) ∈ pairs ∧ Intersects r1 r2) := by
  have hvempty : ValidSchema ([] : List Register) :=
    ⟨fun r hr => absurd hr (List.not_mem_nil r), List.Pairwise.nil⟩
  constructor
  · intro out hok
    have h := buildSchema_ok pairs [] out hw hvempty hok
    refine h.1.2.imp_of_mem ?_
    intro a b ha _ hr
    have hwa := h.1.1 a ha
    exact ⟨by omega, hr⟩
  · intro i j hi hj hne hint
    have hnok : ∀ out, buildSchema [] pairs ≠ Except.ok out := by
      intro out hok
      have h := buildSchema_ok pairs [] out hw hvempty hok
      have hperm : List.Perm out (pairs.map boundOf) := by simpa using h.2
      have hS : out.Pairwise (fun a b => ¬ Intersects a b) :=
        h.1.2.imp (fun hr hin => by
          have h1 := hin.1
          have h2 := hin.2
          omega)
      have hS2 : (pairs.map boundOf).Pairwise (fun a b => ¬ Intersects a b) :=
        (hperm.pairwise_iff (fun hab hba => hab ⟨hba.2, hba.1⟩)).mp hS
      have hS3 : pairs.Pairwise (fun p q => ¬ Intersects (boundOf p) (boundOf q)) :=
        List.pairwise_map.mp hS2
      have hmono := List.pairwise_iff_getElem.mp hS3
      rcases Nat.lt_or_ge i j with hij | hij
      · exact hmono i j hi hj hij ⟨hint.1, hint.2⟩
      · have hji : j < i := by omega
        exact hmono j i hj hi hji ⟨hint.2, hint.1⟩
    cases hbuild : buildSchema [] pairs with
    | ok out => exact absurd hbuild (hnok out)
    | error e =>
      obtain ⟨n1, n2⟩ := e
      have h := buildSchema_error pairs [] [] n1 n2 hw hvempty (by simp) hbuild
      obtain ⟨r1, hr1, r2, hr2, hint2⟩ := h
      refine ⟨n1, n2, rfl, r1, r2, hr1, ?_, hint2⟩
      rcases hr2 with h | h
      · exact absurd h (List.not_mem_nil _)
      · exact h

/-- Witness for claim C5 at a concrete overlapping member list. -/
theorem claim_C5_witness :
    (∀ p ∈ [("status", (⟨0, 2, ValueType.vbytes, none⟩ : Register)),
            ("data", (⟨1, 1, ValueType.vbytes, none⟩ : Register))], 1 ≤ p.2.addressWidth) ∧
    ((∀ out, buildSchema []
        [("status", (⟨0, 2, ValueType.vbytes, none⟩ : Register)),
         ("data", (⟨1, 1, ValueType.vbytes, none⟩ : Register))] = Except.ok out →
      out.Pairwise (fun a b =>
        a.address < b.address ∧ a.address + a.addressWidth ≤ b.address)) ∧
    (∀ (i j : Nat)
        (hi : i < [("status", (⟨0, 2, ValueType.vbytes, none⟩ : Register)),
                   ("data", (⟨1, 1, ValueType.vbytes, none⟩ : Register))].length)
        (hj : j < [("status", (⟨0, 2, ValueType.vbytes, none⟩ : Register)),
                   ("data", (⟨1, 1, ValueType.vbytes, none⟩ : Register))].length), i ≠ j →
      Intersects ([("status", (⟨0, 2, ValueType.vbytes, none⟩ : Register)),
                   ("data", (⟨1, 1, ValueType.vbytes, none⟩ : Register))][i]).2
                 ([("status", (⟨0, 2, ValueType.vbytes, none⟩ : Register)),
                   ("data", (⟨1, 1, ValueType.vbytes, none⟩ : Register))][j]).2 →
      ∃ n1 n2, buildSchema []
          [("status", (⟨0, 2, ValueType.vbytes, none⟩ : Register)),
           ("data", (⟨1, 1, ValueType.vbytes, none⟩ : Register))] = Except.error (n1, n2) ∧
        ∃ r1 r2, (n1, r1) ∈ [("status", (⟨0, 2, ValueType.vbytes, none⟩ : Register)),
                             ("data", (⟨1, 1, ValueType.vbytes, none⟩ : Register))] ∧
          (n2, r2) ∈ [("status", (⟨0, 2, ValueType.vbytes, none⟩ : Register)),
                      ("data", (⟨1, 1, ValueType.vbytes, none⟩ : Register))] ∧
          Intersects r1 r2)) :=
  ⟨by decide, claim_C5_construction _ (by decide)⟩

/-- Counterexample to claim C9: a register already bound into one schema
(under the name "A") can be bound into a second schema with no
construction-time error at all, and its name silently becomes the new
name "B". -/
theorem claim_C9_counterexample :
    buildSchema [] [("A", ⟨0, 1, ValueType.vbytes, none⟩)]
      = Except.ok [⟨0, 1, ValueType.vbytes, some "A"⟩] ∧
    buildSchema [] [("B", ⟨0, 1, ValueType.vbytes, some "A"⟩)]
      = Except.ok [⟨0, 1, ValueType.vbytes, some "B"⟩] ∧
    (⟨0, 1, ValueType.vbytes, some "B"⟩ : Register).nameOpt ≠ some "A" := by
  decide

/-- Claim C9 as amended: the name is (re)assigned at each binding.  Binding
one register under two names in a single schema fails construction (as an
overlap of the register with itself); querying `name` before any binding is
an error; but binding an already-bound register into a second schema is not
detected: it succeeds and overwrites the name with the new one. -/
theorem claim_C9_name_binding (r : Register) (n1 n2 : String) (hw : 1 ≤ r.addressWidth) :
    (∃ e, buildSchema [] [(n1, r), (n2, r)] = Except.error e) ∧
    (r.nameOpt = none → Register.name r = Except.error RMError.registerUnbound) ∧
    (∃ out, bindRegister [] n2 r = Except.ok out ∧ boundOf (n2, r) ∈ out) := by
  have hv1 : ValidSchema [boundOf (n1, r)] := by
    constructor
    · intro x hx
      rw [List.mem_singleton] at hx
      subst hx
      exact hw
    · exact List.pairwise_singleton _ _
  have hself : registersIntersecting [boundOf (n1, r)] r.address
      (r.address + r.addressWidth) = [boundOf (n1, r)] := by
    rw [registersIntersecting_eq_filter _ hv1]
    have hcond : (decide ((boundOf (n1, r)).address < r.address + r.addressWidth)
        && decide (r.address < (boundOf (n1, r)).address + (boundOf (n1, r)).addressWidth))
          = true := by
      have h1 : (boundOf (n1, r)).address = r.address := rfl
      have h2 : (boundOf (n1, r)).addressWidth = r.addressWidth := rfl
      rw [h1, h2]
      simp only [Bool.and_eq_true, decide_eq_true_eq]
      omega
    rw [List.filter_cons, hcond]
    rfl
  have hbind2 : bindRegister [boundOf (n1, r)] n2 r = Except.error (n2, n1) := by
    rw [bindRegister_def, hself]
    rfl
  refine ⟨⟨(n2, n1), ?_⟩, ?_, ?_⟩
  · have hstep : buildSchema [] [(n1, r), (n2, r)]
        = buildSchema [boundOf (n1, r)] [(n2, r)] := rfl
    rw [hstep, buildSchema, hbind2]
  · intro h
    rw [Register.name, h]
  · exact ⟨[boundOf (n2, r)], rfl, List.mem_singleton.mpr rfl⟩

/-- Witness for the amended claim C9 at a concrete register. -/
theorem claim_C9_witness :
    1 ≤ (⟨0, 1, ValueType.vbytes, none⟩ : Register).addressWidth ∧
    ((∃ e, buildSchema [] [("A", (⟨0, 1, ValueType.vbytes, none⟩ : Register)),
        ("B", (⟨0, 1, ValueType.vbytes, none⟩ : Register))] = Except.error e) ∧
    ((⟨0, 1, ValueType.vbytes, none⟩ : Register).nameOpt = none →
      Register.name ⟨0, 1, ValueType.vbytes, none⟩
        = Except.error RMError.registerUnbound) ∧
    (∃ out, bindRegister [] "B" ⟨0, 1, ValueType.vbytes, none⟩ = Except.ok out ∧
      boundOf ("B", ⟨0, 1, ValueType.vbytes, none⟩) ∈ out)) :=
  ⟨by decide, claim_C9_name_binding ⟨0, 1, ValueType.vbytes, none⟩ "A" "B" (by decide)⟩

/-! ## Two's-complement byte round trip -/

theorem natToBytesBE_length (n v : Nat) : (natToBytesBE n v).length = n := by
  induction n generalizing v with
  | zero => rfl
  | succ n ih => simp [natToBytesBE, ih]

theorem bytesToNatBE_snoc (xs : List Nat) (b : Nat) :
    bytesToNatBE (xs ++ [b]) = bytesToNatBE xs * 256 + b := by
  rw [bytesToNatBE, bytesToNatBE, List.foldl_append]
  rfl

theorem bytesToNatBE_natToBytesBE (n v : Nat) :
    bytesToNatBE (natToBytesBE n v) = v % 256 ^ n := by
  induction n generalizing v with
  | zero => simp [natToBytesBE, bytesToNatBE]; omega
  | succ n ih =>
    rw [natToBytesBE, bytesToNatBE_snoc, ih]
    have h1 : (256 : Nat) ^ (n + 1) = 256 * 256 ^ n := by ring
    rw [h1, Nat.mod_mul]
    ring

theorem pow256_eq_pow2 (n : Nat) : (256 : Nat) ^ n = 2 ^ (8 * n) := by
  rw [show (256 : Nat) = 2 ^ 8 by norm_num, ← pow_mul]

/-- Decoding inverts encoding for every value representable in `n ≥ 1`
bytes with the given signedness, for both byte orders. -/
theorem intFromBytes_intToBytes (n : Nat) (hn : 1 ≤ n) (byteOrder : ByteOrder)
    (signed : Bool) (v : Int)
    (hrange : if signed then -(2 ^ (8 * n - 1)) ≤ v ∧ v < 2 ^ (8 * n - 1)
              else 0 ≤ v ∧ v < 2 ^ (8 * n)) :
    intFromBytes byteOrder signed (intToBytes n byteOrder signed v) = v := by
  have hm0 : 0 ≤ v % ((2 : Int) ^ (8 * n)) := Int.emod_nonneg v (by positivity)
  set m := (v % ((2 : Int) ^ (8 * n))).toNat with hmdef
  have hmv : (m : Int) = v % 2 ^ (8 * n) := Int.toNat_of_nonneg hm0
  have hcastP : (((2 ^ (8 * n) : Nat) : Int)) = (2 : Int) ^ (8 * n) := by push_cast; ring
  have hcastQ : (((2 ^ (8 * n - 1) : Nat) : Int)) = (2 : Int) ^ (8 * n - 1) := by
    push_cast; ring
  have hPQ : (2 : Nat) ^ (8 * n) = 2 * 2 ^ (8 * n - 1) := by
    have h8 : 8 * n - 1 + 1 = 8 * n := by omega
    calc (2 : Nat) ^ (8 * n) = 2 ^ (8 * n - 1 + 1) := by rw [h8]
      _ = 2 ^ (8 * n - 1) * 2 := pow_succ 2 _
      _ = 2 * 2 ^ (8 * n - 1) := by ring
  have hmlt : m < 2 ^ (8 * n) := by
    have hlt := Int.emod_lt_of_pos v
      (show (0 : Int) < 2 ^ (8 * n) by positivity)
    omega
  have hBN : bytesToNatBE (natToBytesBE n m) = m := by
    rw [bytesToNatBE_natToBytesBE, pow256_eq_pow2]
    exact Nat.mod_eq_of_lt hmlt
  have hfinal : (if signed && decide (2 ^ (8 * n - 1) ≤ m) then
      ((m : Int)) - 2 ^ (8 * n) else ((m : Int))) = v := by
    cases signed with
    | false =>
      rw [if_neg (by simp)]
      have hr := hrange
      rw [if_neg (by simp)] at hr
      have hveq : v % (2 : Int) ^ (8 * n) = v := Int.emod_eq_of_lt hr.1 hr.2
      omega
    | true =>
      have hr := hrange
      rw [if_pos rfl] at hr
      rcases le_or_lt 0 v with hv0 | hv0
      · have hveq : v % (2 : Int) ^ (8 * n) = v := by
          refine Int.emod_eq_of_lt hv0 ?_
          have : (2 : Int) ^ (8 * n - 1) ≤ 2 ^ (8 * n) := by
            refine pow_le_pow_right₀ (by norm_num) (by omega)
          omega
        have hcond : ¬ (2 ^ (8 * n - 1) ≤ m) := by omega
        rw [Bool.true_and, decide_eq_false hcond, if_neg (by simp)]
        omega
      · have hstep : (v + 2 ^ (8 * n)) % (2 : Int) ^ (8 * n) = v % 2 ^ (8 * n) := by
          have h := @Int.add_mul_emod_self_left v ((2 : Int) ^ (8 * n)) 1
          simp only [mul_one] at h
          exact h
        have hveq : v % (2 : Int) ^ (8 * n) = v + 2 ^ (8 * n) := by
          rw [← hstep]
          refine Int.emod_eq_of_lt (by omega) (by omega)
        have hcond : 2 ^ (8 * n - 1) ≤ m := by omega
        rw [Bool.true_and, decide_eq_true hcond, if_pos rfl]
        omega
  cases byteOrder with
  | big =>
    show (if signed && decide (2 ^ (8 * (natToBytesBE n m).length - 1) ≤
        bytesToNatBE (natToBytesBE n m)) then
      ((bytesToNatBE (natToBytesBE n m) : Int)) - 2 ^ (8 * (natToBytesBE n m).length)
      else ((bytesToNatBE (natToBytesBE n m) : Int))) = v
    rw [natToBytesBE_length, hBN]
    exact hfinal
  | little =>
    show (if signed && decide (2 ^ (8 * (natToBytesBE n m).reverse.length - 1) ≤
        bytesToNatBE (natToBytesBE n m).reverse.reverse) then
      ((bytesToNatBE (natToBytesBE n m).reverse.reverse : Int))
        - 2 ^ (8 * (natToBytesBE n m).reverse.length)
      else ((bytesToNatBE (natToBytesBE n m).reverse.reverse : Int))) = v
    rw [List.reverse_reverse, List.length_reverse, natToBytesBE_length, hBN]
    exact hfinal

/-! ## The observation loop -/

/-- `setRange` over an entirely in-bounds index range raises nothing, keeps
the length, and sets exactly the range. -/
theorem setRange_ok (count : Nat) :
    ∀ (l : List Bool) (start : Int), 0 ≤ start → start.toNat + count ≤ l.length →
      ∃ l2, setRange l start count = Except.ok l2 ∧ l2.length = l.length ∧
        ∀ k, k < l.length →
          l2.getD k false
            = (decide (start.toNat ≤ k ∧ k < start.toNat + count) || l.getD k false) := by
  induction count with
  | zero =>
    intro l start h0 hb
    refine ⟨l, rfl, rfl, ?_⟩
    intro k hk
    simp
  | succ count ih =>
    intro l start h0 hb
    have hlt : start < (l.length : Int) := by omega
    have hset : listSetPy l start true = Except.ok (l.set start.toNat true) := by
      rw [listSetPy, if_neg (by omega), if_pos hlt]
    obtain ⟨l2, h2, hlen2, hchar⟩ := ih (l.set start.toNat true) (start + 1) (by omega)
      (by rw [List.length_set]; omega)
    refine ⟨l2, ?_, ?_, ?_⟩
    · rw [setRange, hset]
      exact h2
    · rw [hlen2, List.length_set]
    · intro k hk
      have hk2 : k < (l.set start.toNat true).length := by rw [List.length_set]; exact hk
      have := hchar k hk2
      rw [this]
      have hgd : (l.set start.toNat true).getD k false
          = (if start.toNat = k then true else l.getD k false) := by
        rw [List.getD_eq_getElem _ false hk2, List.getD_eq_getElem _ false hk]
        by_cases he : start.toNat = k
        · subst he
          rw [if_pos rfl]
          exact List.getElem_set_self _
        · rw [if_neg he]
          exact List.getElem_set_ne he _
      rw [hgd]
      have harg : (start + 1).toNat = start.toNat + 1 := by omega
      rw [harg]
      by_cases he : start.toNat = k
      · subst he
        simp
      · rw [if_neg he]
        by_cases hin : start.toNat ≤ k ∧ k < start.toNat + (count + 1)
        · have hin2 : start.toNat + 1 ≤ k ∧ k < start.toNat + 1 + count := by omega
          rw [decide_eq_true hin, decide_eq_true hin2]
        · have hin2 : ¬ (start.toNat + 1 ≤ k ∧ k < start.toNat + 1 + count) := by omega
          rw [decide_eq_false hin, decide_eq_false hin2]

/-- Unfolding lemma for `observe` (`let`-bindings zeta-reduced). -/
theorem observe_def (regs : List Register) (u : Nat) (st : RMState) (address : Int)
    (data : List Nat) :
    observe regs u st address data =
      if data.length < 1 then
        Except.error (RMError.valueError "data must be non-empty")
      else if data.length % u ≠ 0 then
        Except.error (RMError.valueError "data's length must be divisible by the address width")
      else if address ≥ addressMax regs then
        Except.ok (st, none)
      else
        match setRange st.internalStateMask address
            ((address + ((data.length / u : Nat) : Int) - address).toNat) with
        | Except.error e => Except.error e
        | Except.ok newMask =>
          Except.ok
            (⟨pySliceAssign st.internalState (address * u)
                (min (address + ((data.length / u : Nat) : Int)) (addressMax regs) * u)
                (pySlice data 0
                  (min (address + ((data.length / u : Nat) : Int)) (addressMax regs) * u
                    - address * u)),
              newMask⟩,
              some (registersIntersecting regs address
                (address + ((data.length / u : Nat) : Int)))) := rfl

/-- Unfolding lemma for `deserialize`. -/
theorem deserialize_def (u : Nat) (st : RMState) (register : Register) :
    deserialize u st register =
      if (pySlice st.internalStateMask register.address
          (register.address + register.addressWidth)).all (fun b => b) then
        Except.ok (register.deserialize (pySlice st.internalState (register.address * u)
          (register.address * u + register.addressWidth * u)))
      else
        match register.nameOpt with
        | none => Except.error RMError.registerUnbound
        | some n => Except.error (RMError.registerNotObserved n) := rfl

/-- An observation at a non-negative address whose span stays inside the
declared address space: no error, the data is spliced into the buffer over
the byte range of the span, exactly the covered address units get marked,
and the intersecting registers are returned. -/
theorem observe_in_range (regs : List Register) (u : Nat) (hu : 1 ≤ u) (st : RMState)
    (addr n : Nat) (data : List Nat) (hdata : data.length = n * u) (hn : 1 ≤ n)
    (hmask : st.internalStateMask.length = (addressMax regs).toNat)
    (hmax : (addr : Int) + (n : Int) ≤ addressMax regs) :
    ∃ newMask, observe regs u st (addr : Int) data
      = Except.ok
          (⟨pySliceAssign st.internalState ((addr : Int) * u) (((addr : Int) + (n : Int)) * u) data,
            newMask⟩,
            some (registersIntersecting regs (addr : Int) ((addr : Int) + (n : Int)))) ∧
      newMask.length = st.internalStateMask.length ∧
      (∀ k, k < st.internalStateMask.length →
        newMask.getD k false
          = (decide (addr ≤ k ∧ k < addr + n) || st.internalStateMask.getD k false)) := by
  have hone : 1 * 1 ≤ n * u := Nat.mul_le_mul hn hu
  have hndata1 : ¬ (data.length < 1) := by rw [hdata]; omega
  have hmod : data.length % u = 0 := by rw [hdata]; exact Nat.mul_mod_left n u
  have hdiv : data.length / u = n := by rw [hdata]; exact Nat.mul_div_cancel n hu
  have hmaxgt : ¬ ((addr : Int) ≥ addressMax regs) := by omega
  obtain ⟨l2, hset, hlen2, hchar⟩ := setRange_ok n st.internalStateMask (addr : Int)
    (by omega) (by omega)
  have hargeq : (((addr : Int) + (n : Int)) - (addr : Int)).toNat = n := by omega
  have hmin : min ((addr : Int) + (n : Int)) (addressMax regs) = (addr : Int) + (n : Int) :=
    min_eq_left hmax
  have hsl : pySlice data 0 ((((addr : Int) + (n : Int)) * u) - ((addr : Int) * u)) = data := by
    have harg2 : ((((addr : Int) + (n : Int)) * u) - ((addr : Int) * u)) = ((n * u : Nat) : Int) := by
      push_cast; ring
    rw [harg2, pySlice]
    have h0 : pyNorm 0 data.length = 0 := by rw [pyNorm]; simp
    have hN : pyNorm ((n * u : Nat) : Int) data.length = data.length := by
      rw [pyNorm, if_neg (by omega)]
      rw [Int.toNat_natCast, hdata]
      exact min_self _
    rw [h0, hN, List.take_length, List.drop_zero]
  rw [observe_def, if_neg hndata1, if_neg (by rw [hmod]; simp), if_neg hmaxgt, hdiv,
    hargeq, hset, hmin, hsl]
  refine ⟨l2, rfl, hlen2, ?_⟩
  intro k hk
  rw [hchar k hk]
  simp only [Int.toNat_natCast]

theorem pyNorm_natCast (k n : Nat) : pyNorm ((k : Nat) : Int) n = min k n := by
  rw [pyNorm, if_neg (by omega), Int.toNat_natCast]

theorem pySlice_natCast {α : Type} (l : List α) (s e : Nat) :
    pySlice l ((s : Nat) : Int) ((e : Nat) : Int)
      = (l.take (min e l.length)).drop (min s l.length) := by
  rw [pySlice, pyNorm_natCast, pyNorm_natCast]

theorem pySliceAssign_natCast {α : Type} (l : List α) (s e : Nat) (repl : List α) :
    pySliceAssign l ((s : Nat) : Int) ((e : Nat) : Int) repl
      = l.take (min s l.length) ++ repl ++ l.drop (max (min s l.length) (min e l.length)) := by
  rw [pySliceAssign, pyNorm_natCast, pyNorm_natCast]

/-- Claim C3: round-trip decode.  For widths 1..16 units, unit widths 1..8
bytes, any (non-negative, per the data model) address, either byte order and
signedness, and any integer representable in `w*u` bytes under that
signedness: encoding it, observing the bytes at the register's address on a
fresh instance, and deserializing the register returns the value. -/
theorem claim_C3_round_trip (w u a : Nat) (nm : String) (byteOrder : ByteOrder)
    (signed : Bool) (v : Int) (hw1 : 1 ≤ w) (hw16 : w ≤ 16) (hu1 : 1 ≤ u) (hu8 : u ≤ 8)
    (hrange : if signed then -(2 ^ (8 * (w * u) - 1)) ≤ v ∧ v < 2 ^ (8 * (w * u) - 1)
              else 0 ≤ v ∧ v < 2 ^ (8 * (w * u))) :
    ∃ st1,
      observe [⟨(a : Int), (w : Int), ValueType.vint byteOrder signed, some nm⟩] u
        (initState [⟨(a : Int), (w : Int), ValueType.vint byteOrder signed, some nm⟩] u)
        (a : Int) (intToBytes (w * u) byteOrder signed v)
        = Except.ok (st1,
            some [⟨(a : Int), (w : Int), ValueType.vint byteOrder signed, some nm⟩]) ∧
      deserialize u st1 ⟨(a : Int), (w : Int), ValueType.vint byteOrder signed, some nm⟩
        = Except.ok (Value.int v) := by
  set reg : Register := ⟨(a : Int), (w : Int), ValueType.vint byteOrder signed, some nm⟩
    with hregdef
  set data := intToBytes (w * u) byteOrder signed v with hdatadef
  have hlen : data.length = w * u := by
    rw [hdatadef]
    cases byteOrder <;> simp [intToBytes, natToBytesBE_length]
  have hmaxeq : addressMax [reg] = (a : Int) + (w : Int) := rfl
  have hcastsum : ((a : Int) + (w : Int)) = (((a + w : Nat)) : Int) := by push_cast; ring
  have hmask0 : (initState [reg] u).internalStateMask = List.replicate (a + w) false := by
    rw [initState, hmaxeq, hcastsum, Int.toNat_natCast]
  have hbuf0 : (initState [reg] u).internalState = List.replicate ((a + w) * u) 0 := by
    rw [initState, hmaxeq]
    have : ((a : Int) + (w : Int)) * (u : Int) = (((a + w) * u : Nat) : Int) := by
      push_cast; ring
    rw [this, Int.toNat_natCast]
  have hmasklen0 : (initState [reg] u).internalStateMask.length = (addressMax [reg]).toNat := by
    rw [hmask0, List.length_replicate, hmaxeq, hcastsum, Int.toNat_natCast]
  obtain ⟨newMask, hobs, hmasklen, hmchar⟩ :=
    observe_in_range [reg] u hu1 (initState [reg] u) a w data hlen hw1 hmasklen0
      (by rw [hmaxeq])
  have hv1 : ValidSchema [reg] := by
    constructor
    · intro x hx
      rw [List.mem_singleton] at hx
      subst hx
      show (1 : Int) ≤ (w : Int)
      exact_mod_cast hw1
    · exact List.pairwise_singleton _ _
  have hri : registersIntersecting [reg] (a : Int) ((a : Int) + (w : Int)) = [reg] := by
    rw [registersIntersecting_eq_filter _ hv1, List.filter_cons]
    have hcond : (decide (reg.address < (a : Int) + (w : Int))
        && decide ((a : Int) < reg.address + reg.addressWidth)) = true := by
      have h1 : reg.address = (a : Int) := rfl
      have h2 : reg.addressWidth = (w : Int) := rfl
      rw [h1, h2]
      simp only [Bool.and_eq_true, decide_eq_true_eq]
      constructor <;> omega
    rw [hcond]
    rfl
  rw [hri] at hobs
  have hbuf : pySliceAssign (initState [reg] u).internalState ((a : Int) * (u : Int))
      (((a : Int) + (w : Int)) * (u : Int)) data = List.replicate (a * u) 0 ++ data := by
    have hc1 : ((a : Int) * (u : Int)) = (((a * u : Nat)) : Int) := by push_cast; ring
    have hc2 : (((a : Int) + (w : Int)) * (u : Int)) = ((((a + w) * u : Nat)) : Int) := by
      push_cast; ring
    rw [hc1, hc2, pySliceAssign_natCast, hbuf0, List.length_replicate]
    have hle : a * u ≤ (a + w) * u := Nat.mul_le_mul_right u (by omega)
    rw [min_eq_left hle, min_self, max_eq_right hle, List.take_replicate, min_eq_left hle,
      List.drop_replicate, Nat.sub_self]
    simp
  rw [hbuf] at hobs
  refine ⟨_, hobs, ?_⟩
  rw [deserialize_def]
  have hregaddr : reg.address = (a : Int) := rfl
  have hregwidth : reg.addressWidth = (w : Int) := rfl
  have hmlen : newMask.length = a + w := by
    rw [hmasklen, hmask0, List.length_replicate]
  have hmaskslice : pySlice newMask reg.address (reg.address + reg.addressWidth)
      = newMask.drop a := by
    rw [hregaddr, hregwidth, hcastsum, pySlice_natCast, hmlen]
    rw [min_self, min_eq_left (by omega : a ≤ a + w)]
    rw [← hmlen, List.take_length]
  have hdropeq : newMask.drop a = List.replicate w true := by
    apply List.ext_getElem
    · rw [List.length_drop, hmlen, List.length_replicate]
      omega
    · intro i h1 h2
      have hiw : i < w := by
        rw [List.length_drop, hmlen] at h1
        omega
      rw [List.getElem_replicate, List.getElem_drop]
      have hbound2 : a + i < (initState [reg] u).internalStateMask.length := by
        rw [hmasklen0, hmaxeq, hcastsum, Int.toNat_natCast]
        omega
      have hchar := hmchar (a + i) hbound2
      rw [hmask0] at hchar
      have hrepl : (List.replicate (a + w) false).getD (a + i) false = false := by
        rw [List.getD_eq_getElem _ false (by rw [List.length_replicate]; omega)]
        exact List.getElem_replicate ..
      rw [hrepl, Bool.or_false, decide_eq_true (by omega : a ≤ a + i ∧ a + i < a + w)] at hchar
      rw [← List.getD_eq_getElem newMask false (by omega)]
      exact hchar
  have hall : (pySlice newMask reg.address (reg.address + reg.addressWidth)).all
      (fun b => b) = true := by
    rw [hmaskslice, hdropeq]
    simp
  rw [if_pos hall]
  have hraw : pySlice (List.replicate (a * u) 0 ++ data) (reg.address * (u : Int))
      (reg.address * (u : Int) + reg.addressWidth * (u : Int)) = data := by
    rw [hregaddr, hregwidth]
    have hc1 : ((a : Int) * (u : Int)) = (((a * u : Nat)) : Int) := by push_cast; ring
    have hc2 : ((a : Int) * (u : Int) + (w : Int) * (u : Int))
        = (((a * u + w * u : Nat)) : Int) := by push_cast; ring
    have hlen2 : (List.replicate (a * u) 0 ++ data).length = a * u + w * u := by
      rw [List.length_append, List.length_replicate, hlen]
    rw [hc2, hc1, pySlice_natCast, hlen2, min_self, min_eq_left (by omega : a * u ≤ a * u + w * u)]
    rw [← hlen2, List.take_length]
    have hdl := List.drop_left (List.replicate (a * u) (0 : Nat)) data
    rw [List.length_replicate] at hdl
    exact hdl
  rw [hraw]
  have hdecode : reg.deserialize data = Value.int (intFromBytes byteOrder signed data) := rfl
  rw [hdecode, hdatadef]
  rw [intFromBytes_intToBytes (w * u) (by have := Nat.mul_le_mul hw1 hu1; omega)
    byteOrder signed v hrange]

theorem le_foldl_max (l : List Int) :
    ∀ e : Int, e ≤ l.foldl max e ∧ ∀ y ∈ l, y ≤ l.foldl max e := by
  induction l with
  | nil =>
    intro e
    exact ⟨le_refl e, by simp⟩
  | cons x xs ih =>
    intro e
    have h1 := ih (max e x)
    refine ⟨le_trans (le_max_left e x) h1.1, ?_⟩
    intro y hy
    rcases List.mem_cons.mp hy with h | h
    · subst h
      exact le_trans (le_max_right e y) h1.1
    · exact h1.2 y h

/-- Every register's end address is bounded by `_address_max`. -/
theorem le_addressMax (regs : List Register) (r : Register) (hr : r ∈ regs) :
    r.address + r.addressWidth ≤ addressMax regs := by
  cases regs with
  | nil => cases hr
  | cons x xs =>
    show r.address + r.addressWidth
      ≤ (xs.map (fun register => register.address + register.addressWidth)).foldl max
          (x.address + x.addressWidth)
    rcases List.mem_cons.mp hr with h | h
    · subst h
      exact (le_foldl_max _ _).1
    · exact (le_foldl_max _ _).2 _ (List.mem_map.mpr ⟨r, h, rfl⟩)

/-- Claim C4: `deserialize` fails with `RegisterNotObserved` (and produces
nothing) exactly when some address unit of the register's range is
unobserved; when all are observed it decodes exactly the byte range
`[address*u, (address+width)*u)` of the buffer. -/
theorem claim_C4_deserialize (regs : List Register) (u : Nat) (st : RMState)
    (register : Register) (nm : String)
    (hv : ValidSchema regs) (hreg : register ∈ regs) (ha : 0 ≤ register.address)
    (hname : register.nameOpt = some nm)
    (hmask : st.internalStateMask.length = (addressMax regs).toNat)
    (hbuf : st.internalState.length = (addressMax regs).toNat * u) :
    ((¬ ∀ k, k < register.addressWidth.toNat →
        st.internalStateMask.getD (register.address.toNat + k) false = true) →
      deserialize u st register = Except.error (RMError.registerNotObserved nm)) ∧
    ((∀ k, k < register.addressWidth.toNat →
        st.internalStateMask.getD (register.address.toNat + k) false = true) →
      deserialize u st register
        = Except.ok (register.deserialize
            ((st.internalState.drop (register.address.toNat * u)).take
              (register.addressWidth.toNat * u)))) := by
  set A := register.address.toNat with hAdef
  set W := register.addressWidth.toNat with hWdef
  have hW1 : (1 : Int) ≤ register.addressWidth := hv.1 register hreg
  have hAw : register.address = (A : Int) := (Int.toNat_of_nonneg ha).symm
  have hWw : register.addressWidth = (W : Int) := (Int.toNat_of_nonneg (by omega)).symm
  have hle := le_addressMax regs register hreg
  have hAWlen : A + W ≤ st.internalStateMask.length := by
    rw [hmask]
    omega
  have hsum : (A : Int) + (W : Int) = (((A + W : Nat)) : Int) := by push_cast; ring
  have hslice : pySlice st.internalStateMask register.address
      (register.address + register.addressWidth)
        = (st.internalStateMask.take (A + W)).drop A := by
    rw [hAw, hWw, hsum, pySlice_natCast, min_eq_left hAWlen, min_eq_left (by omega)]
  have hslicelen : ((st.internalStateMask.take (A + W)).drop A).length = W := by
    rw [List.length_drop, List.length_take]
    omega
  have hiff : ((st.internalStateMask.take (A + W)).drop A).all (fun b => b) = true ↔
      (∀ k, k < W → st.internalStateMask.getD (A + k) false = true) := by
    rw [List.all_eq_true]
    constructor
    · intro hall k hk
      have hklen : k < ((st.internalStateMask.take (A + W)).drop A).length := by omega
      have hmem := List.getElem_mem hklen
      have := hall _ hmem
      rw [List.getElem_drop, List.getElem_take] at this
      rw [List.getD_eq_getElem _ false (by omega)]
      exact this
    · intro h x hx
      obtain ⟨k, hk, hkx⟩ := List.mem_iff_getElem.mp hx
      have hkW : k < W := by omega
      rw [List.getElem_drop, List.getElem_take] at hkx
      have := h k hkW
      rw [List.getD_eq_getElem _ false (by omega)] at this
      rw [hkx] at this
      exact this
  constructor
  · intro hnone
    rw [deserialize_def, hslice, if_neg (by rw [hiff]; exact hnone), hname]
  · intro hallk
    rw [deserialize_def, hslice, if_pos (hiff.mpr hallk)]
    have hbuflen : A * u + W * u ≤ st.internalState.length := by
      rw [hbuf]
      have h1 : A + W ≤ (addressMax regs).toNat := by omega
      calc A * u + W * u = (A + W) * u := by ring
        _ ≤ (addressMax regs).toNat * u := Nat.mul_le_mul_right u h1
    have hc1 : register.address * (u : Int) = (((A * u : Nat)) : Int) := by
      rw [hAw]; push_cast; ring
    have hc2 : register.address * (u : Int) + register.addressWidth * (u : Int)
        = (((A * u + W * u : Nat)) : Int) := by
      rw [hAw, hWw]; push_cast; ring
    rw [hc2, hc1, pySlice_natCast, min_eq_left hbuflen, min_eq_left (by omega),
      List.drop_take]
    have harg : A * u + W * u - A * u = W * u := by omega
    rw [harg]

/-- Witness for claim C4 at a concrete fully-observed instance. -/
theorem claim_C4_witness :
    (ValidSchema [⟨0, 2, ValueType.vbytes, some "w"⟩] ∧
      (⟨0, 2, ValueType.vbytes, some "w"⟩ : Register) ∈
        [(⟨0, 2, ValueType.vbytes, some "w"⟩ : Register)] ∧
      (0 : Int) ≤ (⟨0, 2, ValueType.vbytes, some "w"⟩ : Register).address ∧
      (⟨0, 2, ValueType.vbytes, some "w"⟩ : Register).nameOpt = some "w" ∧
      (RMState.mk [5, 6] [true, true]).internalStateMask.length
        = (addressMax [⟨0, 2, ValueType.vbytes, some "w"⟩]).toNat ∧
      (RMState.mk [5, 6] [true, true]).internalState.length
        = (addressMax [⟨0, 2, ValueType.vbytes, some "w"⟩]).toNat * 1) ∧
    (((¬ ∀ k, k < (⟨0, 2, ValueType.vbytes, some "w"⟩ : Register).addressWidth.toNat →
        (RMState.mk [5, 6] [true, true]).internalStateMask.getD
          ((⟨0, 2, ValueType.vbytes, some "w"⟩ : Register).address.toNat + k) false = true) →
      deserialize 1 (RMState.mk [5, 6] [true, true]) ⟨0, 2, ValueType.vbytes, some "w"⟩
        = Except.error (RMError.registerNotObserved "w")) ∧
    ((∀ k, k < (⟨0, 2, ValueType.vbytes, some "w"⟩ : Register).addressWidth.toNat →
        (RMState.mk [5, 6] [true, true]).internalStateMask.getD
          ((⟨0, 2, ValueType.vbytes, some "w"⟩ : Register).address.toNat + k) false = true) →
      deserialize 1 (RMState.mk [5, 6] [true, true]) ⟨0, 2, ValueType.vbytes, some "w"⟩
        = Except.ok ((⟨0, 2, ValueType.vbytes, some "w"⟩ : Register).deserialize
            (((RMState.mk [5, 6] [true, true]).internalState.drop
                ((⟨0, 2, ValueType.vbytes, some "w"⟩ : Register).address.toNat * 1)).take
              ((⟨0, 2, ValueType.vbytes, some "w"⟩ : Register).addressWidth.toNat * 1))))) :=
  ⟨⟨by decide, by decide, by decide, by decide, by decide, by decide⟩,
    claim_C4_deserialize [⟨0, 2, ValueType.vbytes, some "w"⟩] 1
      (RMState.mk [5, 6] [true, true]) ⟨0, 2, ValueType.vbytes, some "w"⟩ "w"
      (by decide) (by decide) (by decide) (by decide) (by decide) (by decide)⟩

/-- Witness for claim C3 at concrete parameters (2-byte big-endian signed
register at address 3, value -2). -/
theorem claim_C3_witness :
    (1 ≤ 2 ∧ 2 ≤ 16 ∧ 1 ≤ 1 ∧ 1 ≤ 8 ∧
      (if true then -(2 ^ (8 * (2 * 1) - 1)) ≤ (-2 : Int) ∧ (-2 : Int) < 2 ^ (8 * (2 * 1) - 1)
       else 0 ≤ (-2 : Int) ∧ (-2 : Int) < 2 ^ (8 * (2 * 1)))) ∧
    (∃ st1,
      observe [⟨(3 : Int), (2 : Int), ValueType.vint ByteOrder.big true, some "my_reg"⟩] 1
        (initState [⟨(3 : Int), (2 : Int), ValueType.vint ByteOrder.big true, some "my_reg"⟩] 1)
        (3 : Int) (intToBytes (2 * 1) ByteOrder.big true (-2))
        = Except.ok (st1,
            some [⟨(3 : Int), (2 : Int), ValueType.vint ByteOrder.big true, some "my_reg"⟩]) ∧
      deserialize 1 st1 ⟨(3 : Int), (2 : Int), ValueType.vint ByteOrder.big true, some "my_reg"⟩
        = Except.ok (Value.int (-2))) :=
  ⟨⟨by decide, by decide, by decide, by decide, by norm_num⟩,
    claim_C3_round_trip 2 1 3 "my_reg" ByteOrder.big true (-2)
      (by decide) (by decide) (by decide) (by decide) (by norm_num)⟩

/-- Claim C6 (divergence): an `observe` whose address is at or past
`_address_max` raises nothing and leaves the state untouched, but the
function executes a bare `return` — it yields Python `None` (modelled
`none`), not the empty register list promised by its own annotation and by
the claim. -/
theorem claim_C6_out_of_range (regs : List Register) (u : Nat) (st : RMState)
    (address : Int) (data : List Nat)
    (h1 : 1 ≤ data.length) (h2 : data.length % u = 0) (h3 : addressMax regs ≤ address) :
    observe regs u st address data = Except.ok (st, none) ∧
    (Except.ok (st, none) : Except RMError (RMState × Option (List Register)))
      ≠ Except.ok (st, some ([] : List Register)) := by
  constructor
  · rw [observe_def, if_neg (by omega), if_neg (by rw [h2]; simp), if_pos (by omega)]
  · simp

/-- Witness for the C6 divergence theorem at a concrete out-of-range
observation. -/
theorem claim_C6_witness :
    (1 ≤ ([171] : List Nat).length ∧ ([171] : List Nat).length % 1 = 0 ∧
      addressMax [⟨0, 1, ValueType.vbytes, some "status"⟩] ≤ 5) ∧
    (observe [⟨0, 1, ValueType.vbytes, some "status"⟩] 1
        (initState [⟨0, 1, ValueType.vbytes, some "status"⟩] 1) 5 [171]
      = Except.ok (initState [⟨0, 1, ValueType.vbytes, some "status"⟩] 1, none) ∧
    (Except.ok (initState [⟨0, 1, ValueType.vbytes, some "status"⟩] 1, none)
        : Except RMError (RMState × Option (List Register)))
      ≠ Except.ok (initState [⟨0, 1, ValueType.vbytes, some "status"⟩] 1,
          some ([] : List Register))) :=
  ⟨⟨by decide, by decide, by decide⟩,
    claim_C6_out_of_range [⟨0, 1, ValueType.vbytes, some "status"⟩] 1
      (initState [⟨0, 1, ValueType.vbytes, some "status"⟩] 1) 5 [171]
      (by decide) (by decide) (by decide)⟩

/-- Claim C7 (divergence, at the failing input): on the schema with one
two-unit register and a fresh instance, `observe(1, two bytes)` overruns
the declared space by one unit; the byte write is clamped but the mask loop
is not, so the assignment `mask[2] = True` on the two-element mask raises
`IndexError` instead of returning the intersecting registers. -/
theorem claim_C7_overrun_raises :
    observe [⟨0, 2, ValueType.vbytes, some "w"⟩] 1
        (initState [⟨0, 2, ValueType.vbytes, some "w"⟩] 1) 1 [170, 187]
      = Except.error RMError.indexError := by
  decide

/-- Claim C10 (divergence, at the failing input): on the schema with one
four-unit register, the freshly constructed buffer has the declared length
4, but `observe(-1, one byte)` passes the out-of-range guard (which only
checks `address >= _address_max`), and the negative byte offset makes the
slice assignment wrap around: it splices the byte in before the last
element, growing the buffer to length 5. -/
theorem claim_C10_negative_address_grows_buffer :
    (initState [⟨0, 4, ValueType.vbytes, some "w"⟩] 1).internalState.length = 4 ∧
    observe [⟨0, 4, ValueType.vbytes, some "w"⟩] 1
        (initState [⟨0, 4, ValueType.vbytes, some "w"⟩] 1) (-1) [255]
      = Except.ok (⟨[0, 0, 0, 255, 0], [false, false, false, true]⟩, some []) ∧
    ([0, 0, 0, 255, 0] : List Nat).length
      ≠ ((addressMax [⟨0, 4, ValueType.vbytes, some "w"⟩]).toNat * 1) := by
  decide

end RegisterDecoder
